import Mathlib

/-!
Shallow embedding of the two source files of `historical_weather_data_2`:
`main.py` (the collector with its schema-reconciling CSV writer) and
`merge.py` (the aggregator: union-header merge, duplicate check, date check).

A stored CSV row is a list of cell strings aligned with the file's header.
A data record returned by the weather API is a Python dict with string keys;
it is modelled as an insertion-ordered association list (`Row`).
-/

/-- A flattened API record: a Python dict as an insertion-ordered association list. -/
abbrev Row := List (String × String)

/-- Keys of a record in insertion order, as Python's `data.keys()`. -/
def pyKeys (data : Row) : List String := data.map Prod.fst

/-- `append_to_csv` (main.py:21-25) after the NA-fill loop (main.py:169-172):
the `csv.DictWriter` emits, for each header column in order, the record's
value, which the fill loop has set to "NA" when the key was absent. -/
def writeRow (fieldnames : List String) (data : Row) : List String :=
  fieldnames.map fun f => (data.lookup f).getD "NA"

/-- `update_csv_with_new_column` (main.py:79-93): every stored row is re-read
as a dict keyed by the old header (`csv.DictReader` zips header and cells),
each field of the new header that the dict lacks is set to "NA", and the row
is written back under the new header by a `csv.DictWriter`. -/
def update_csv_with_new_column (oldHeader : List String)
    (rows : List (List String)) (newFieldnames : List String) : List (List String) :=
  rows.map fun vals =>
    newFieldnames.map fun f => ((oldHeader.zip vals).lookup f).getD "NA"

/-- Re-reading a cell of a stored CSV row, as `csv.DictReader` does: the value
paired with column `c` when header and cells are zipped into a dict. -/
def rereadCell (header vals : List String) (c : String) : Option String :=
  (header.zip vals).lookup c

theorem lookup_cons_self (a v : String) (rest : List (String × String)) :
    ((a, v) :: rest).lookup a = some v := by
  simp [List.lookup]

theorem lookup_cons_ne (a v : String) (rest : List (String × String))
    (hne : c ≠ a) : ((a, v) :: rest).lookup c = rest.lookup c := by
  have hb : (c == a) = false := beq_eq_false_iff_ne.mpr hne
  simp [List.lookup, hb]

theorem lookup_zip_map (h : List String) (g : String → String) (hnd : h.Nodup)
    {c : String} (hc : c ∈ h) : (h.zip (h.map g)).lookup c = some (g c) := by
  induction h with
  | nil => cases hc
  | cons a t ih =>
    rcases List.mem_cons.mp hc with rfl | hct
    · exact lookup_cons_self c (g c) _
    · have hne : c ≠ a := by
        rintro rfl; exact (List.nodup_cons.mp hnd).1 hct
      rw [List.map_cons, List.zip_cons_cons, lookup_cons_ne a (g a) _ hne]
      exact ih (List.nodup_cons.mp hnd).2 hct

theorem lookup_zip_not_mem (h : List String) {c : String} (hc : c ∉ h) :
    ∀ vals : List String, (h.zip vals).lookup c = none := by
  induction h with
  | nil => intro vals; simp
  | cons a t ih =>
    intro vals
    cases vals with
    | nil => simp
    | cons v vs =>
      have hne : c ≠ a := fun e => hc (e ▸ List.mem_cons_self a t)
      have hct : c ∉ t := fun m => hc (List.mem_cons_of_mem _ m)
      rw [List.zip_cons_cons, lookup_cons_ne a v _ hne]
      exact ih hct vs

theorem lookup_zip_isSome (h : List String) {c : String} (hc : c ∈ h) :
    ∀ vals : List String, vals.length = h.length →
      ∃ v, (h.zip vals).lookup c = some v := by
  induction h with
  | nil => cases hc
  | cons a t ih =>
    intro vals hlen
    cases vals with
    | nil => simp at hlen
    | cons v vs =>
      by_cases hca : c = a
      · exact ⟨v, by rw [List.zip_cons_cons, hca]; exact lookup_cons_self a v _⟩
      · rcases List.mem_cons.mp hc with rfl | hct
        · exact absurd rfl hca
        · have hlen' : vs.length = t.length := by simpa using hlen
          rcases ih hct vs hlen' with ⟨w, hw⟩
          exact ⟨w, by rw [List.zip_cons_cons, lookup_cons_ne a v _ hca]; exact hw⟩

/-- C1: after the schema-reconciling writer rewrites the collector CSV for the
extended header `oldHeader ++ newCols`, every previously written row, re-read
from the rewritten file, has "NA" in every column it did not originally have
and its unchanged value in every previously existing column. -/
theorem C1_backfill_correctness (oldHeader newCols : List String)
    (rows : List (List String)) (hnd : (oldHeader ++ newCols).Nodup)
    (hlen : ∀ r ∈ rows, r.length = oldHeader.length) :
    List.Forall₂ (fun vals w =>
        (∀ c ∈ oldHeader,
          rereadCell (oldHeader ++ newCols) w c = rereadCell oldHeader vals c)
      ∧ (∀ c ∈ newCols, rereadCell (oldHeader ++ newCols) w c = some "NA"))
      rows (update_csv_with_new_column oldHeader rows (oldHeader ++ newCols)) := by
  unfold update_csv_with_new_column
  rw [List.forall₂_map_right_iff]
  rw [List.forall₂_same]
  intro vals hvals
  have hdisj := (List.nodup_append.mp hnd).2.2
  constructor
  · intro c hc
    have hfull : c ∈ oldHeader ++ newCols := List.mem_append_left _ hc
    rcases lookup_zip_isSome oldHeader hc vals (hlen vals hvals) with ⟨v, hv⟩
    unfold rereadCell
    rw [lookup_zip_map _ _ hnd hfull, hv]
    simp [hv]
  · intro c hc
    have hfull : c ∈ oldHeader ++ newCols := List.mem_append_right _ hc
    have hnotold : c ∉ oldHeader := fun hmem => hdisj hmem hc
    unfold rereadCell
    rw [lookup_zip_map _ _ hnd hfull]
    simp [lookup_zip_not_mem _ hnotold]

/-- C1 witness: concrete file with header [a, b], one stored row [1, 2], new
column c; after the rewrite the re-read row is [1, 2, NA]. -/
theorem C1_backfill_witness :
    rereadCell (["a", "b"] ++ ["c"]) ["1", "2", "NA"] "c" = some "NA"
  ∧ rereadCell (["a", "b"] ++ ["c"]) ["1", "2", "NA"] "a"
      = rereadCell ["a", "b"] ["1", "2"] "a" := by
  have h := C1_backfill_correctness ["a", "b"] ["c"] [["1", "2"]]
    (by decide) (by decide)
  rcases h with _ | ⟨hP, -⟩
  exact ⟨hP.2 "c" (by decide), hP.1 "a" (by decide)⟩

/-- `set(data.keys()) - set(fieldnames)` (main.py:156): the distinct keys of
the record that are absent from the current header. The list records the
elements in discovery order; the order in which Python actually iterates the
resulting `set` is hash-dependent and is supplied separately (see
`collectorStep`). -/
def newFields (K H : List String) : List String :=
  (K.filter fun k => decide (k ∉ H)).dedup

/-- State of the collector's output file: the current header (None before the
first successful record, main.py:141) and the stored data rows. -/
structure CState where
  fieldnames : Option (List String)
  rows : List (List String)
deriving DecidableEq

/-- One iteration of the collector's writer loop (main.py:149-175) for a
successful record `data`. `setOrd` models the order in which CPython iterates
the set `new_fields` when `fieldnames.extend(new_fields)` runs (main.py:160):
for `str` elements this order depends on the per-process hash seed, so it is a
parameter; any permutation of the set's elements can occur. -/
def collectorStep (setOrd : List String → List String) (st : CState) (data : Row) :
    CState :=
  match st.fieldnames with
  | none => ⟨some (pyKeys data), [writeRow (pyKeys data) data]⟩
  | some H =>
    let nf := newFields (pyKeys data) H
    if nf.isEmpty then
      ⟨some H, st.rows ++ [writeRow H data]⟩
    else
      ⟨some (H ++ setOrd nf),
        update_csv_with_new_column H st.rows (H ++ setOrd nf)
          ++ [writeRow (H ++ setOrd nf) data]⟩

/-- The collector's writer applied to a whole stream of successful records,
starting from the empty file (main.py:141-175). -/
def collectorRun (setOrd : List String → List String) (datas : List Row) : CState :=
  datas.foldl (collectorStep setOrd) ⟨none, []⟩

/-- The set of columns of the file, as a list; empty before the header is
first written. -/
def headerOf (st : CState) : List String := st.fieldnames.getD []

theorem newFields_eq_nil_iff (K H : List String) :
    newFields K H = [] ↔ ∀ k ∈ K, k ∈ H := by
  unfold newFields
  rw [List.dedup_eq_nil, List.filter_eq_nil_iff]
  constructor
  · intro h k hk
    by_contra hnk
    exact h k hk (by simpa using hnk)
  · intro h k hk hdec
    have := h k hk
    simp at hdec
    exact hdec this

theorem mem_newFields (K H : List String) (c : String) :
    c ∈ newFields K H ↔ c ∈ K ∧ c ∉ H := by
  unfold newFields
  rw [List.mem_dedup, List.mem_filter]
  simp

/-- C2, counterexample. The claim says the extended header lists the new
columns "in the order they first appear in the row". In the source the new
columns are appended by iterating the Python `set` `new_fields`
(main.py:160); for `str` elements the iteration order of a CPython set
depends on the randomized per-process hash seed, so the reversed enumeration
is a possible run. Under it, a row with keys a, b, c against header [a]
yields header [a, c, b], not the discovery order [a, b, c]. -/
theorem C2_discovery_order_cex :
    (List.reverse ["b", "c"]).Perm ["b", "c"]
  ∧ (collectorStep List.reverse ⟨some ["a"], [["1"]]⟩
        [("a", "2"), ("b", "3"), ("c", "4")]).fieldnames = some ["a", "c", "b"]
  ∧ (["a", "c", "b"] : List String) ≠ ["a", "b", "c"] := by
  refine ⟨by decide, by decide, by decide⟩

/-- C2, amended: when a record with key set K meets header H and K − H is
non-empty, the new header is H followed by the new columns in the (unspecified,
hash-seed dependent) order in which Python iterates the set K − H: the
existing columns keep their previous order as a prefix, the appended block
consists of exactly the new columns, each exactly once, and no header
column is duplicated. -/
theorem C2_header_extension (setOrd : List String → List String) (st : CState)
    (H : List String) (data : Row) (hH : st.fieldnames = some H)
    (hperm : (setOrd (newFields (pyKeys data) H)).Perm (newFields (pyKeys data) H))
    (hne : newFields (pyKeys data) H ≠ []) (hnd : H.Nodup) :
    (collectorStep setOrd st data).fieldnames
        = some (H ++ setOrd (newFields (pyKeys data) H))
  ∧ (∀ c, c ∈ H ++ setOrd (newFields (pyKeys data) H) ↔ (c ∈ H ∨ c ∈ pyKeys data))
  ∧ (H ++ setOrd (newFields (pyKeys data) H)).Nodup := by
  have hemp : (newFields (pyKeys data) H).isEmpty = false := by
    simpa [List.isEmpty_iff] using hne
  refine ⟨?_, ?_, ?_⟩
  · simp only [collectorStep, hH, hemp]
    simp
  · intro c
    rw [List.mem_append, hperm.mem_iff, mem_newFields]
    by_cases hcH : c ∈ H <;> simp [hcH]
  · rw [List.nodup_append]
    refine ⟨hnd, hperm.nodup_iff.mpr (List.nodup_dedup _), ?_⟩
    intro a haH hanew
    exact ((mem_newFields _ _ a).mp (hperm.mem_iff.mp hanew)).2 haH

/-- C2 witness for the amended statement, with the identity set-iteration
order: header [a] extended by a record with keys a, b becomes [a, b]. -/
theorem C2_header_extension_witness :
    (collectorStep id ⟨some ["a"], [["1"]]⟩ [("a", "2"), ("b", "3")]).fieldnames
        = some (["a"] ++ id (newFields (pyKeys [("a", "2"), ("b", "3")]) ["a"]))
  ∧ ("b" ∈ ["a"] ++ id (newFields (pyKeys [("a", "2"), ("b", "3")]) ["a"]))
  ∧ (["a"] ++ id (newFields (pyKeys [("a", "2"), ("b", "3")]) ["a"])).Nodup := by
  have h := C2_header_extension id ⟨some ["a"], [["1"]]⟩ ["a"]
    [("a", "2"), ("b", "3")] rfl (by decide) (by decide) (by decide)
  exact ⟨h.1, (h.2.1 "b").mpr (by decide), h.2.2⟩

/-- C8: the header of the collector file only ever gains columns: for any
stream of records and any set-iteration order, every column present after
processing the first i records is still present after the first i+1. -/
theorem C8_header_monotonic (setOrd : List String → List String)
    (datas : List Row) (i : Nat) :
    headerOf (collectorRun setOrd (datas.take i))
      ⊆ headerOf (collectorRun setOrd (datas.take (i + 1))) := by
  have hstep : ∀ (st : CState) (d : Row),
      headerOf st ⊆ headerOf (collectorStep setOrd st d) := by
    intro st d
    match hst : st.fieldnames with
    | none =>
      simp [headerOf, collectorStep, hst]
    | some H =>
      by_cases hemp : (newFields (pyKeys d) H).isEmpty
      · simp [headerOf, collectorStep, hst, hemp]
      · simp only [headerOf, collectorStep, hst, hemp]
        simp only [Bool.false_eq_true, if_false, Option.getD_some]
        exact List.subset_append_left _ _
  rw [List.take_succ]
  cases hx : datas[i]? with
  | none => simp [collectorRun]
  | some d =>
    simp only [collectorRun, Option.toList_some, List.foldl_append, List.foldl_cons,
      List.foldl_nil]
    exact hstep _ d

theorem lookup_eq_none_of_not_mem_keys :
    ∀ (data : Row) (c : String), c ∉ pyKeys data → data.lookup c = none := by
  intro data
  induction data with
  | nil => intro c _; rfl
  | cons p rest ih =>
    intro c hnk
    have hne : c ≠ p.1 := fun e => hnk (e ▸ List.mem_cons_self _ _)
    have hrest : c ∉ pyKeys rest := fun m => hnk (List.mem_cons_of_mem _ m)
    have step : ((p.1, p.2) :: rest).lookup c = rest.lookup c :=
      lookup_cons_ne p.1 p.2 rest hne
    simpa using step.trans (ih c hrest)

/-- C9: when a record's keys are all within the current header (so `new_fields`
is empty, main.py:159), no file rewrite happens: the header is unchanged, the
stored rows are untouched, and the appended row has one cell per header
column, holding "NA" in every header column the record lacks and an actual
value in every header column it has. -/
theorem C9_append_gap_fill (setOrd : List String → List String) (st : CState)
    (H : List String) (data : Row) (hH : st.fieldnames = some H)
    (hnd : H.Nodup) (hsub : ∀ k ∈ pyKeys data, k ∈ H) :
    (collectorStep setOrd st data).fieldnames = some H
  ∧ (collectorStep setOrd st data).rows = st.rows ++ [writeRow H data]
  ∧ (writeRow H data).length = H.length
  ∧ (∀ c ∈ H, (rereadCell H (writeRow H data) c).isSome = true)
  ∧ (∀ c ∈ H, c ∉ pyKeys data → rereadCell H (writeRow H data) c = some "NA") := by
  have hemp : (newFields (pyKeys data) H).isEmpty = true := by
    rw [List.isEmpty_iff]
    exact (newFields_eq_nil_iff _ _).mpr hsub
  refine ⟨?_, ?_, ?_, ?_, ?_⟩
  · simp [collectorStep, hH, hemp]
  · simp [collectorStep, hH, hemp]
  · simp [writeRow]
  · intro c hc
    unfold rereadCell writeRow
    rw [lookup_zip_map _ _ hnd hc]
    rfl
  · intro c hc hnk
    unfold rereadCell writeRow
    rw [lookup_zip_map _ _ hnd hc]
    simp [lookup_eq_none_of_not_mem_keys data c hnk]

/-- C9 witness: header [a, b], record with single key a; the row appended is
[1, NA], nothing is rewritten. -/
theorem C9_append_gap_fill_witness :
    (collectorStep id ⟨some ["a", "b"], [["0", "9"]]⟩ [("a", "1")]).fieldnames
        = some ["a", "b"]
  ∧ (collectorStep id ⟨some ["a", "b"], [["0", "9"]]⟩ [("a", "1")]).rows
        = [["0", "9"]] ++ [writeRow ["a", "b"] [("a", "1")]]
  ∧ rereadCell ["a", "b"] (writeRow ["a", "b"] [("a", "1")]) "b" = some "NA" := by
  have h := C9_append_gap_fill id ⟨some ["a", "b"], [["0", "9"]]⟩ ["a", "b"]
    [("a", "1")] rfl (by decide) (by decide)
  exact ⟨h.1, h.2.1, h.2.2.2.2 "b" (by decide) (by decide)⟩

/-- Python exceptions the aggregator can raise in the modelled paths. -/
inductive PyExn
  | typeError
  | keyError
deriving DecidableEq

/-- An input CSV file as read from disk: its lines, the header line first
(when the file is not empty). -/
abbrev InFile := List (List String)

/-- Code-point comparison of character lists, the order Python uses to
compare `str` values. -/
def lexLe : List Char → List Char → Bool
  | [], _ => true
  | _ :: _, [] => false
  | a :: as, b :: bs =>
    if a.toNat < b.toNat then true
    else if b.toNat < a.toNat then false
    else lexLe as bs

/-- Python's `<=` on strings: lexicographic by code point. -/
def pyStrLe (a b : String) : Bool := lexLe a.data b.data

/-- `pyStrLe` as a relation, for use with sorting. -/
def pyLe (a b : String) : Prop := pyStrLe a b = true

instance : DecidableRel pyLe := fun a b => by unfold pyLe; infer_instance

theorem lexLe_total : ∀ as bs : List Char, lexLe as bs = true ∨ lexLe bs as = true := by
  intro as
  induction as with
  | nil => intro bs; left; rfl
  | cons a as ih =>
    intro bs
    cases bs with
    | nil => right; rfl
    | cons b bs =>
      rcases Nat.lt_trichotomy a.toNat b.toNat with h | h | h
      · left; simp [lexLe, h]
      · rcases ih bs with h2 | h2
        · left; simp [lexLe, h, h2]
        · right; simp [lexLe, h.symm, h2]
      · right; simp [lexLe, h]

theorem lexLe_trans : ∀ as bs cs : List Char,
    lexLe as bs = true → lexLe bs cs = true → lexLe as cs = true := by
  intro as
  induction as with
  | nil => intro bs cs _ _; rfl
  | cons a as ih =>
    intro bs cs h1 h2
    cases bs with
    | nil => simp [lexLe] at h1
    | cons b bs =>
      cases cs with
      | nil => simp [lexLe] at h2
      | cons c cs =>
        simp only [lexLe] at h1 h2 ⊢
        by_cases hab : a.toNat < b.toNat
        · by_cases hbc : b.toNat < c.toNat
          · have hac : a.toNat < c.toNat := by omega
            simp [hac]
          · by_cases hcb : c.toNat < b.toNat
            · simp [hbc, hcb] at h2
            · have hac : a.toNat < c.toNat := by omega
              simp [hac]
        · by_cases hba : b.toNat < a.toNat
          · simp [hab, hba] at h1
          · simp [hab, hba] at h1
            by_cases hbc : b.toNat < c.toNat
            · have hac : a.toNat < c.toNat := by omega
              simp [hac]
            · by_cases hcb : c.toNat < b.toNat
              · simp [hbc, hcb] at h2
              · simp [hbc, hcb] at h2
                have h3 := ih bs cs h1 h2
                have hac : ¬ a.toNat < c.toNat := by omega
                have hca : ¬ c.toNat < a.toNat := by omega
                simp [hac, hca, h3]

instance : IsTotal String pyLe := ⟨fun a b => lexLe_total a.data b.data⟩

instance : IsTrans String pyLe := ⟨fun a b c => lexLe_trans a.data b.data c.data⟩

/-- The value `sorted(list(all_fieldnames))` computed by `get_all_fieldnames`
(merge.py:32-39) when no input file is headerless: union of all header rows
(a Python set of distinct column names), sorted lexicographically by code
point. -/
def unionFieldnames (files : List InFile) : List String :=
  ((files.filterMap List.head?).flatten.dedup).insertionSort pyLe

/-- `get_all_fieldnames` (merge.py:32-39): for an input file with no lines,
`csv.DictReader(...).fieldnames` is `None` and `set.update(None)` raises an
unhandled `TypeError`; otherwise the sorted union of the headers is returned. -/
def get_all_fieldnames (files : List InFile) : Except PyExn (List String) :=
  if files.all fun f => !f.isEmpty then Except.ok (unionFieldnames files)
  else Except.error PyExn.typeError

/-- Row normalization inside `merge_csv_files` (merge.py:97-102): a row is
read as a dict keyed by its own file's header, "NA" is filled in for each
global column the dict lacks, and the `csv.DictWriter` emits the global
columns in order. -/
def projectRow (fileHeader all vals : List String) : List String :=
  all.map fun c => ((fileHeader.zip vals).lookup c).getD "NA"

/-- The rows contributed by one input file to the merged output
(merge.py:93-102): its data lines projected onto the global header. -/
def fileRows (all : List String) (f : InFile) : List (List String) :=
  match f with
  | [] => []
  | hdr :: rs => rs.map (projectRow hdr all)

/-- All rows written to the merged temp file, in input-file order. -/
def mergedRows (all : List String) (files : List InFile) : List (List String) :=
  (files.map (fileRows all)).flatten

/-- The result of `check_duplicates` (merge.py:11-29). The function only reads
`file_path` and writes the deduplicated frame, if any, to a separate
`.dedup.csv` path; `original` is the content of the checked file after the
call, `numDuplicates` the reported count (`duplicates.sum()`), `dedupFile`
the content of the new file when one is created. pandas' row equality after
`read_csv` is modelled as cell-list equality. -/
structure DedupResult where
  original : List (List String)
  numDuplicates : Nat
  dedupFile : Option (List (List String))
deriving DecidableEq

/-- `df.duplicated()` (merge.py:16): a Boolean per row, true exactly when an
equal row occurred earlier. -/
def dupFlagsAux (seen : List (List String)) : List (List String) → List Bool
  | [] => []
  | r :: rs =>
    decide (r ∈ seen) :: dupFlagsAux (if r ∈ seen then seen else r :: seen) rs

/-- `df.drop_duplicates()` (merge.py:21): keep the first occurrence of every
row, in order. -/
def dropDupAux (seen : List (List String)) : List (List String) → List (List String)
  | [] => []
  | r :: rs => if r ∈ seen then dropDupAux seen rs else r :: dropDupAux (r :: seen) rs

def drop_duplicates (rows : List (List String)) : List (List String) :=
  dropDupAux [] rows

/-- `check_duplicates` (merge.py:11-29): if any flag is set, the count is
reported and the deduplicated rows are saved to a new file; otherwise nothing
is written. -/
def check_duplicates (rows : List (List String)) : DedupResult :=
  let flags := dupFlagsAux [] rows
  ⟨rows, flags.count true,
    if flags.any (fun b => b) then some (drop_duplicates rows) else none⟩

/-- The behaviour the spec ascribes to duplicate removal, written from its
words: keep each row's first occurrence and drop every later row equal to it,
preserving order. -/
def keepFirstSpec : List (List String) → List (List String)
  | [] => []
  | r :: rs => r :: keepFirstSpec (rs.filter fun x => decide (x ≠ r))
termination_by l => l.length
decreasing_by
  simp only [List.length_cons]
  exact Nat.lt_succ_of_le (List.length_filter_le _ _)

theorem keepFirstSpec_nil : keepFirstSpec [] = [] := by
  rw [keepFirstSpec]

theorem keepFirstSpec_cons (r : List String) (rs : List (List String)) :
    keepFirstSpec (r :: rs) = r :: keepFirstSpec (rs.filter fun x => decide (x ≠ r)) := by
  rw [keepFirstSpec]

theorem dropDupAux_eq_keepFirstSpec :
    ∀ (l : List (List String)) (seen : List (List String)),
      dropDupAux seen l = keepFirstSpec (l.filter fun x => decide (x ∉ seen)) := by
  intro l
  induction l with
  | nil => intro seen; rw [List.filter_nil, keepFirstSpec_nil, dropDupAux]
  | cons r rs ih =>
    intro seen
    by_cases hr : r ∈ seen
    · rw [dropDupAux, if_pos hr, List.filter_cons]
      have hd : decide (r ∉ seen) = false := by simpa using hr
      rw [hd]
      simp only [Bool.false_eq_true, if_false]
      exact ih seen
    · rw [dropDupAux, if_neg hr, List.filter_cons]
      have hd : decide (r ∉ seen) = true := by simpa using hr
      rw [hd, if_pos rfl, keepFirstSpec_cons, ih (r :: seen), List.filter_filter]
      congr 2
      apply List.filter_congr
      intro x _
      by_cases hx : x = r
      · subst hx
        simp [List.mem_cons]
      · by_cases hxs : x ∈ seen <;> simp [List.mem_cons, hx, hxs]

theorem drop_duplicates_eq_keepFirstSpec (rows : List (List String)) :
    drop_duplicates rows = keepFirstSpec rows := by
  unfold drop_duplicates
  rw [dropDupAux_eq_keepFirstSpec]
  congr 1
  apply List.filter_eq_self.mpr
  intro x _
  simp

theorem dupFlags_count_add_length :
    ∀ (l : List (List String)) (seen : List (List String)),
      (dupFlagsAux seen l).count true + (dropDupAux seen l).length = l.length := by
  intro l
  induction l with
  | nil => intro seen; rfl
  | cons r rs ih =>
    intro seen
    by_cases hr : r ∈ seen
    · have h1 : dupFlagsAux seen (r :: rs) = true :: dupFlagsAux seen rs := by
        simp [dupFlagsAux, hr]
      have h2 : dropDupAux seen (r :: rs) = dropDupAux seen rs := by
        simp [dropDupAux, hr]
      rw [h1, h2]
      have := ih seen
      simp only [List.count_cons, List.length_cons]
      simp only [beq_self_eq_true, if_pos]
      omega
    · have h1 : dupFlagsAux seen (r :: rs) = false :: dupFlagsAux (r :: seen) rs := by
        simp [dupFlagsAux, hr]
      have h2 : dropDupAux seen (r :: rs) = r :: dropDupAux (r :: seen) rs := by
        simp [dropDupAux, hr]
      rw [h1, h2]
      have := ih (r :: seen)
      simp only [List.count_cons, List.length_cons]
      simp only [Bool.false_eq_true, if_false, beq_iff_eq]
      omega

theorem dropDupAux_sublist :
    ∀ (l : List (List String)) (seen : List (List String)),
      (dropDupAux seen l).Sublist l := by
  intro l
  induction l with
  | nil => intro seen; simp [dropDupAux]
  | cons r rs ih =>
    intro seen
    by_cases hr : r ∈ seen
    · rw [dropDupAux, if_pos hr]
      exact (ih seen).cons r
    · rw [dropDupAux, if_neg hr]
      exact (ih (r :: seen)).cons₂ r

theorem mem_dropDupAux :
    ∀ (l : List (List String)) (seen : List (List String)) (x : List String),
      x ∈ dropDupAux seen l ↔ (x ∈ l ∧ x ∉ seen) := by
  intro l
  induction l with
  | nil => intro seen x; simp [dropDupAux]
  | cons r rs ih =>
    intro seen x
    by_cases hr : r ∈ seen
    · rw [dropDupAux, if_pos hr, ih seen x]
      constructor
      · rintro ⟨h1, h2⟩
        exact ⟨List.mem_cons_of_mem _ h1, h2⟩
      · rintro ⟨h1, h2⟩
        rcases List.mem_cons.mp h1 with rfl | h1
        · exact absurd hr h2
        · exact ⟨h1, h2⟩
    · rw [dropDupAux, if_neg hr, List.mem_cons, ih (r :: seen) x]
      constructor
      · rintro (rfl | ⟨h1, h2⟩)
        · exact ⟨List.mem_cons_self _ _, hr⟩
        · exact ⟨List.mem_cons_of_mem _ h1, fun hs => h2 (List.mem_cons_of_mem _ hs)⟩
      · rintro ⟨h1, h2⟩
        rcases List.mem_cons.mp h1 with rfl | h1
        · exact Or.inl rfl
        · by_cases hxr : x = r
          · exact Or.inl hxr
          · exact Or.inr ⟨h1, fun hs => by
              rcases List.mem_cons.mp hs with h | h
              · exact hxr h
              · exact h2 h⟩

theorem dropDupAux_nodup :
    ∀ (l : List (List String)) (seen : List (List String)),
      (dropDupAux seen l).Nodup := by
  intro l
  induction l with
  | nil => intro seen; simp [dropDupAux]
  | cons r rs ih =>
    intro seen
    by_cases hr : r ∈ seen
    · rw [dropDupAux, if_pos hr]
      exact ih seen
    · rw [dropDupAux, if_neg hr]
      refine List.nodup_cons.mpr ⟨?_, ih (r :: seen)⟩
      intro hmem
      exact ((mem_dropDupAux rs (r :: seen) r).mp hmem).2 (List.mem_cons_self _ _)

theorem dupFlags_all_false :
    ∀ (l : List (List String)) (seen : List (List String)), l.Nodup →
      (∀ x ∈ l, x ∉ seen) → ∀ b ∈ dupFlagsAux seen l, b = false := by
  intro l
  induction l with
  | nil => intro seen _ _ b hb; simp [dupFlagsAux] at hb
  | cons r rs ih =>
    intro seen hnd hdisj b hb
    have hr : r ∉ seen := hdisj r (List.mem_cons_self _ _)
    rw [dupFlagsAux, if_neg hr] at hb
    rcases List.mem_cons.mp hb with rfl | hb
    · simpa using hr
    · refine ih (r :: seen) (List.nodup_cons.mp hnd).2 ?_ b hb
      intro x hx hmem
      rcases List.mem_cons.mp hmem with rfl | hmem
      · exact (List.nodup_cons.mp hnd).1 hx
      · exact hdisj x (List.mem_cons_of_mem _ hx) hmem

theorem dupFlags_any_iff_count_pos (flags : List Bool) :
    flags.any (fun b => b) = true ↔ 0 < flags.count true := by
  rw [List.any_eq_true, List.count_pos_iff]
  constructor
  · rintro ⟨b, hb, h⟩
    cases b
    · simp at h
    · exact hb
  · intro h
    exact ⟨true, h, rfl⟩

/-- C7: duplicate detection keeps the first occurrence of each duplicated row
in original order, writes the deduplicated rows to a second file exactly when
a duplicate exists, reports the count of dropped rows, leaves the checked
file's contents unchanged, and on an already duplicate-free file reports
zero duplicates and creates no file. -/
theorem C7_duplicate_detection (rows : List (List String)) :
    (check_duplicates rows).original = rows
  ∧ (check_duplicates rows).dedupFile
      = (if 0 < (check_duplicates rows).numDuplicates then some (keepFirstSpec rows)
          else none)
  ∧ (check_duplicates rows).numDuplicates + (keepFirstSpec rows).length = rows.length
  ∧ (keepFirstSpec rows).Sublist rows
  ∧ (keepFirstSpec rows).Nodup
  ∧ (∀ x, x ∈ keepFirstSpec rows ↔ x ∈ rows)
  ∧ (rows.Nodup → check_duplicates rows = ⟨rows, 0, none⟩) := by
  have hdk := drop_duplicates_eq_keepFirstSpec rows
  have hcount := dupFlags_count_add_length rows []
  rw [drop_duplicates] at hdk
  have hnum : (check_duplicates rows).numDuplicates = (dupFlagsAux [] rows).count true :=
    rfl
  have hfile : (check_duplicates rows).dedupFile
      = (if (dupFlagsAux [] rows).any (fun b => b) then some (drop_duplicates rows)
          else none) := rfl
  refine ⟨rfl, ?_, ?_, ?_, ?_, ?_, ?_⟩
  · rw [hfile, hnum]
    by_cases hany : (dupFlagsAux [] rows).any (fun b => b) = true
    · rw [if_pos hany, drop_duplicates, hdk]
      have hpos := (dupFlags_any_iff_count_pos _).mp hany
      rw [if_pos hpos]
    · rw [if_neg (by simpa using hany)]
      have hz : ¬ 0 < (dupFlagsAux [] rows).count true := by
        intro h
        exact hany ((dupFlags_any_iff_count_pos _).mpr h)
      rw [if_neg hz]
  · rw [hnum, ← hdk]
    exact hcount
  · rw [← hdk]
    exact dropDupAux_sublist rows []
  · rw [← hdk]
    exact dropDupAux_nodup rows []
  · intro x
    rw [← hdk, mem_dropDupAux]
    simp
  · intro hnd
    have hflags := dupFlags_all_false rows [] hnd (by simp)
    have hcnt : (dupFlagsAux [] rows).count true = 0 := by
      rw [List.count_eq_zero]
      intro hmem
      exact absurd (hflags true hmem) (by simp)
    have hany : (dupFlagsAux [] rows).any (fun b => b) = false := by
      rw [List.any_eq_false]
      intro b hb
      simp [hflags b hb]
    show (⟨rows, (dupFlagsAux [] rows).count true,
        if (dupFlagsAux [] rows).any (fun b => b) then some (drop_duplicates rows)
        else none⟩ : DedupResult) = ⟨rows, 0, none⟩
    rw [hcnt, hany]
    simp

/-- C7 witness: a file with one duplicated row gets count 1 and the dedup
content drops the repeat; a duplicate-free file reports zero duplicates and
no file is created. -/
theorem C7_duplicate_detection_witness :
    check_duplicates [["3"]] = ⟨[["3"]], 0, none⟩
  ∧ (check_duplicates [["1"], ["1"], ["2"]]).numDuplicates
        + (keepFirstSpec [["1"], ["1"], ["2"]]).length = 3 := by
  exact ⟨(C7_duplicate_detection [["3"]]).2.2.2.2.2.2 (by decide),
    (C7_duplicate_detection [["1"], ["1"], ["2"]]).2.2.1⟩

/-- The code points of general category Nd, the class Python's `\d` matches
on a `str` pattern compiled without `re.ASCII` (merge.py:44 uses neither the
flag nor a bytes pattern): transcribed from the Nd ranges of Unicode 15.0,
the table CPython 3.12 ships. Interpreter versions differ only in a few of
the astral ranges; every range listed is Nd in all of them. -/
def ndRanges : List (Nat × Nat) :=
  [(0x0030, 0x0039), (0x0660, 0x0669), (0x06F0, 0x06F9), (0x07C0, 0x07C9),
   (0x0966, 0x096F), (0x09E6, 0x09EF), (0x0A66, 0x0A6F), (0x0AE6, 0x0AEF),
   (0x0B66, 0x0B6F), (0x0BE6, 0x0BEF), (0x0C66, 0x0C6F), (0x0CE6, 0x0CEF),
   (0x0D66, 0x0D6F), (0x0DE6, 0x0DEF), (0x0E50, 0x0E59), (0x0ED0, 0x0ED9),
   (0x0F20, 0x0F29), (0x1040, 0x1049), (0x1090, 0x1099), (0x17E0, 0x17E9),
   (0x1810, 0x1819), (0x1946, 0x194F), (0x19D0, 0x19D9), (0x1A80, 0x1A89),
   (0x1A90, 0x1A99), (0x1B50, 0x1B59), (0x1BB0, 0x1BB9), (0x1C40, 0x1C49),
   (0x1C50, 0x1C59), (0xA620, 0xA629), (0xA8D0, 0xA8D9), (0xA900, 0xA909),
   (0xA9D0, 0xA9D9), (0xA9F0, 0xA9F9), (0xAA50, 0xAA59), (0xABF0, 0xABF9),
   (0xFF10, 0xFF19),
   (0x104A0, 0x104A9), (0x10D30, 0x10D39), (0x11066, 0x1106F),
   (0x110F0, 0x110F9), (0x11136, 0x1113F), (0x111D0, 0x111D9),
   (0x112F0, 0x112F9), (0x11450, 0x11459), (0x114D0, 0x114D9),
   (0x11650, 0x11659), (0x116C0, 0x116C9), (0x11730, 0x11739),
   (0x118E0, 0x118E9), (0x11950, 0x11959), (0x11C50, 0x11C59),
   (0x11D50, 0x11D59), (0x11DA0, 0x11DA9), (0x11F50, 0x11F59),
   (0x16A60, 0x16A69), (0x16AC0, 0x16AC9), (0x16B50, 0x16B59),
   (0x1D7CE, 0x1D7FF), (0x1E140, 0x1E149), (0x1E2F0, 0x1E2F9),
   (0x1E4F0, 0x1E4F9), (0x1E950, 0x1E959), (0x1FBF0, 0x1FBF9)]

/-- Whether a character matches Python's `\d`: any Unicode decimal digit
(category Nd), e.g. the ASCII digits and the Arabic-Indic digits ٠-٩. -/
def pyDigit (c : Char) : Bool :=
  ndRanges.any fun r => decide (r.1 ≤ c.toNat) && decide (c.toNat ≤ r.2)

/-- One regex atom of `is_valid_date` (merge.py:42-44): `\d{n}` consumes `n`
characters of the `\d` class from the input or fails. -/
def consumeDigits : Nat → List Char → Option (List Char)
  | 0, cs => some cs
  | _ + 1, [] => none
  | n + 1, c :: cs => if pyDigit c then consumeDigits n cs else none

/-- A literal regex character: consumes exactly that character or fails. -/
def consumeLit (ch : Char) : List Char → Option (List Char)
  | [] => none
  | c :: cs => if c == ch then some cs else none

/-- Python's `$` anchor: matches at the end of the string or just before a
single newline at the end of the string. -/
def dollarAccepts : List Char → Bool
  | [] => true
  | [c] => c == '\n'
  | _ => false

/-- Chains an optional remainder into the rest of the match: fail if the
previous atom failed, continue otherwise. -/
def andThen : Option (List Char) → (List Char → Bool) → Bool
  | none, _ => false
  | some r, F => F r

/-- The anchored match `re.match(r"^\d{4}-\d{2}-\d{2}$", s)` run on the
characters of `s`. -/
def reRunDate (cs : List Char) : Bool :=
  andThen (consumeDigits 4 cs) fun r1 =>
    andThen (consumeLit '-' r1) fun r2 =>
      andThen (consumeDigits 2 r2) fun r3 =>
        andThen (consumeLit '-' r3) fun r4 =>
          andThen (consumeDigits 2 r4) dollarAccepts

/-- `is_valid_date` (merge.py:42-44). -/
def is_valid_date (s : String) : Bool := reRunDate s.data

/-- The acceptance condition the claim asserts for the date validator,
written from its words: exactly four digits, a dash, two digits, a dash, two
digits — the digits of a `YYYY-MM-DD` date being 0-9. -/
def claimDatePattern (s : String) : Bool :=
  match s.data with
  | [y1, y2, y3, y4, s1, m1, m2, s2, d1, d2] =>
    y1.isDigit && y2.isDigit && y3.isDigit && y4.isDigit && (s1 == '-')
      && m1.isDigit && m2.isDigit && (s2 == '-') && d1.isDigit && d2.isDigit
  | _ => false

/-- The amended acceptance condition: the claimed shape with the digit class
widened to Python's `\d` (any Unicode decimal digit), either alone or
followed by one trailing newline (which Python's `$` tolerates). -/
def dateShapeNL : List Char → Bool
  | [y1, y2, y3, y4, s1, m1, m2, s2, d1, d2] =>
    pyDigit y1 && pyDigit y2 && pyDigit y3 && pyDigit y4 && (s1 == '-')
      && pyDigit m1 && pyDigit m2 && (s2 == '-') && pyDigit d1 && pyDigit d2
  | [y1, y2, y3, y4, s1, m1, m2, s2, d1, d2, nl] =>
    pyDigit y1 && pyDigit y2 && pyDigit y3 && pyDigit y4 && (s1 == '-')
      && pyDigit m1 && pyDigit m2 && (s2 == '-') && pyDigit d1 && pyDigit d2
      && (nl == '\n')
  | _ => false

def claimDatePatternNL (s : String) : Bool := dateShapeNL s.data

theorem andThen_ite (p : Bool) (o : Option (List Char)) (F : List Char → Bool) :
    andThen (if p then o else none) F = (p && andThen o F) := by
  cases p <;> simp [andThen]

theorem andThen_none (F : List Char → Bool) : andThen none F = false := rfl

theorem andThen_some (r : List Char) (F : List Char → Bool) :
    andThen (some r) F = F r := rfl

theorem andThen_ite_eq (c ch : Char) (o : Option (List Char)) (F : List Char → Bool) :
    andThen (if c = ch then o else none) F = ((c == ch) && andThen o F) := by
  by_cases h : c = ch <;> simp [h, andThen]

theorem reRunDate_eq_dateShapeNL : ∀ cs : List Char, reRunDate cs = dateShapeNL cs := by
  intro cs
  rcases cs with _ | ⟨a, cs⟩
  · rfl
  rcases cs with _ | ⟨b, cs⟩
  · simp only [reRunDate, consumeDigits, consumeLit, andThen_ite, andThen_ite_eq,
      andThen_none, andThen_some, dollarAccepts, dateShapeNL]
    simp [Bool.and_assoc]
  rcases cs with _ | ⟨c, cs⟩
  · simp only [reRunDate, consumeDigits, consumeLit, andThen_ite, andThen_ite_eq,
      andThen_none, andThen_some, dollarAccepts, dateShapeNL]
    simp [Bool.and_assoc]
  rcases cs with _ | ⟨d, cs⟩
  · simp only [reRunDate, consumeDigits, consumeLit, andThen_ite, andThen_ite_eq,
      andThen_none, andThen_some, dollarAccepts, dateShapeNL]
    simp [Bool.and_assoc]
  rcases cs with _ | ⟨e, cs⟩
  · simp only [reRunDate, consumeDigits, consumeLit, andThen_ite, andThen_ite_eq,
      andThen_none, andThen_some, dollarAccepts, dateShapeNL]
    simp [Bool.and_assoc]
  rcases cs with _ | ⟨f, cs⟩
  · simp only [reRunDate, consumeDigits, consumeLit, andThen_ite, andThen_ite_eq,
      andThen_none, andThen_some, dollarAccepts, dateShapeNL]
    simp [Bool.and_assoc]
  rcases cs with _ | ⟨g, cs⟩
  · simp only [reRunDate, consumeDigits, consumeLit, andThen_ite, andThen_ite_eq,
      andThen_none, andThen_some, dollarAccepts, dateShapeNL]
    simp [Bool.and_assoc]
  rcases cs with _ | ⟨h, cs⟩
  · simp only [reRunDate, consumeDigits, consumeLit, andThen_ite, andThen_ite_eq,
      andThen_none, andThen_some, dollarAccepts, dateShapeNL]
    simp [Bool.and_assoc]
  rcases cs with _ | ⟨i, cs⟩
  · simp only [reRunDate, consumeDigits, consumeLit, andThen_ite, andThen_ite_eq,
      andThen_none, andThen_some, dollarAccepts, dateShapeNL]
    simp [Bool.and_assoc]
  rcases cs with _ | ⟨j, cs⟩
  · simp only [reRunDate, consumeDigits, consumeLit, andThen_ite, andThen_ite_eq,
      andThen_none, andThen_some, dollarAccepts, dateShapeNL]
    simp [Bool.and_assoc]
  rcases cs with _ | ⟨k, cs⟩
  · simp only [reRunDate, consumeDigits, consumeLit, andThen_ite, andThen_ite_eq,
      andThen_none, andThen_some, dollarAccepts, dateShapeNL]
    simp [Bool.and_assoc]
  rcases cs with _ | ⟨l, cs⟩
  · simp only [reRunDate, consumeDigits, consumeLit, andThen_ite, andThen_ite_eq,
      andThen_none, andThen_some, dollarAccepts, dateShapeNL]
    simp [Bool.and_assoc]
  · simp only [reRunDate, consumeDigits, consumeLit, andThen_ite, andThen_ite_eq,
      andThen_none, andThen_some, dollarAccepts, dateShapeNL]
    simp [Bool.and_assoc]

theorem is_valid_date_eq_claimNL (s : String) :
    is_valid_date s = claimDatePatternNL s :=
  reRunDate_eq_dateShapeNL s.data

/-- Result of `process_and_check_dates` (merge.py:47-68): the rows written to
the output file and the run-level warning flag `incorrect_format_found`. -/
structure DateCheckResult where
  written : List (List String)
  warning : Bool
deriving DecidableEq

/-- One loop iteration of `process_and_check_dates` (merge.py:58-63):
`row["date"]` raises `KeyError` when the column is absent; a non-empty value
failing `is_valid_date` sets the flag; the row is written unchanged either
way. -/
def dateCheckStep (header : List String) (acc : DateCheckResult)
    (vals : List String) : Except PyExn DateCheckResult :=
  match (header.zip vals).lookup "date" with
  | none => Except.error PyExn.keyError
  | some d =>
    Except.ok ⟨acc.written ++ [vals], acc.warning || (!(d == "") && !(is_valid_date d))⟩

/-- `process_and_check_dates` (merge.py:47-68): the output file gets the same
header and every row unchanged; the warning flag is reported once at the end. -/
def process_and_check_dates (header : List String) (rows : List (List String)) :
    Except PyExn DateCheckResult :=
  rows.foldlM (dateCheckStep header) ⟨[], false⟩

/-- Whether a row has a non-empty `date` cell that the validator rejects. -/
def rowDateBad (header : List String) (vals : List String) : Bool :=
  match (header.zip vals).lookup "date" with
  | none => false
  | some d => !(d == "") && !(is_valid_date d)

theorem process_and_check_dates_ok (header : List String) :
    ∀ (rows : List (List String)) (acc : DateCheckResult),
      (∀ r ∈ rows, ((header.zip r).lookup "date").isSome = true) →
      rows.foldlM (dateCheckStep header) acc
        = Except.ok ⟨acc.written ++ rows, acc.warning || rows.any (rowDateBad header)⟩ := by
  intro rows
  induction rows with
  | nil =>
    intro acc _
    simp only [List.foldlM_nil, List.append_nil, List.any_nil, Bool.or_false]
    rfl
  | cons r rs ih =>
    intro acc hall
    have hr := hall r (List.mem_cons_self _ _)
    rcases Option.isSome_iff_exists.mp hr with ⟨d, hd⟩
    have hstep : dateCheckStep header acc r
        = Except.ok ⟨acc.written ++ [r], acc.warning || (!(d == "") && !(is_valid_date d))⟩ := by
      unfold dateCheckStep
      rw [hd]
    have hbad : rowDateBad header r = (!(d == "") && !(is_valid_date d)) := by
      unfold rowDateBad
      rw [hd]
    rw [List.foldlM_cons, hstep]
    show rs.foldlM (dateCheckStep header) _ = _
    rw [ih _ (fun x hx => hall x (List.mem_cons_of_mem _ hx))]
    simp [List.any_cons, hbad, Bool.or_assoc]

/-- C6, counterexample. The claim says a non-empty date passes exactly when it
is four digits, dash, two digits, dash, two digits. The source diverges on two
kinds of input: Python's `$` also matches just before a trailing newline, so
`is_valid_date("2024-07-01\n")` is True while the claimed pattern rejects
that string; and `\d` on a `str` pattern matches any Unicode decimal digit,
so `is_valid_date("٢٠٢٤-٠٧-٠١")` (Arabic-Indic digits) is True while the
claimed pattern rejects it. Both strings are non-empty. -/
theorem C6_date_pattern_cex :
    is_valid_date "2024-07-01\n" = true
  ∧ claimDatePattern "2024-07-01\n" = false
  ∧ ("2024-07-01\n" : String) ≠ ""
  ∧ is_valid_date "٢٠٢٤-٠٧-٠١" = true
  ∧ claimDatePattern "٢٠٢٤-٠٧-٠١" = false
  ∧ ("٢٠٢٤-٠٧-٠١" : String) ≠ "" := by
  refine ⟨by decide, by decide, by decide, by decide, by decide, by decide⟩

/-- C6, amended: a non-empty `date` passes exactly when it matches four
digits, dash, two digits, dash, two digits — a digit being any character of
Python's `\d` class (Unicode decimal digits, category Nd) — optionally
followed by one trailing newline; rows with empty `date` are passed through
unchecked; a mismatch only sets the run-level warning flag; and every row,
valid or not, is written unchanged to the output. -/
theorem C6_date_validation (header : List String) (rows : List (List String))
    (hall : ∀ r ∈ rows, ((header.zip r).lookup "date").isSome = true) :
    (∀ s : String, is_valid_date s = claimDatePatternNL s)
  ∧ process_and_check_dates header rows
      = Except.ok ⟨rows, rows.any (rowDateBad header)⟩
  ∧ (rows.any (rowDateBad header) = true ↔
      ∃ r ∈ rows, ∃ d, (header.zip r).lookup "date" = some d ∧ d ≠ ""
        ∧ claimDatePatternNL d = false) := by
  refine ⟨is_valid_date_eq_claimNL, ?_, ?_⟩
  · unfold process_and_check_dates
    rw [process_and_check_dates_ok header rows ⟨[], false⟩ hall]
    simp
  · rw [List.any_eq_true]
    constructor
    · rintro ⟨r, hr, hbad⟩
      unfold rowDateBad at hbad
      rcases Option.isSome_iff_exists.mp (hall r hr) with ⟨d, hd⟩
      rw [hd] at hbad
      have hbad' : (!(d == "") && !(is_valid_date d)) = true := hbad
      refine ⟨r, hr, d, hd, ?_, ?_⟩
      · intro he
        subst he
        simp at hbad'
      · cases hvd : is_valid_date d with
        | false =>
          rw [is_valid_date_eq_claimNL] at hvd
          exact hvd
        | true =>
          rw [hvd] at hbad'
          simp at hbad'
    · rintro ⟨r, hr, d, hd, hne, hfail⟩
      refine ⟨r, hr, ?_⟩
      unfold rowDateBad
      rw [hd]
      have h1 : (d == "") = false := beq_eq_false_iff_ne.mpr hne
      have h2 : is_valid_date d = false := by
        rw [is_valid_date_eq_claimNL, hfail]
      show (!(d == "") && !(is_valid_date d)) = true
      rw [h1, h2]
      rfl

/-- C6 witness: on a merged file with header [date] and rows 2024-13-40 (no
calendar check, passes) and 2024-7-1 (fails), every row is written unchanged
and the warning flag is set; spot checks of the validator follow from the
equivalence. -/
theorem C6_date_validation_witness :
    process_and_check_dates ["date"] [["2024-13-40"], ["2024-7-1"]]
      = Except.ok ⟨[["2024-13-40"], ["2024-7-1"]],
          ([["2024-13-40"], ["2024-7-1"]] : List (List String)).any (rowDateBad ["date"])⟩
  ∧ is_valid_date "2024-07-01" = claimDatePatternNL "2024-07-01"
  ∧ is_valid_date "2024-7-1" = claimDatePatternNL "2024-7-1" := by
  have h := C6_date_validation ["date"] [["2024-13-40"], ["2024-7-1"]] (by decide)
  exact ⟨h.2.1, h.1 "2024-07-01", h.1 "2024-7-1"⟩

/-- Content of a CSV file produced by the aggregator: header plus data rows. -/
structure MergedData where
  header : List String
  rows : List (List String)
deriving DecidableEq

/-- Outcome of `merge_csv_files` (merge.py:71-116). `noInputFiles` and
`missingRequired` are the two reported-and-return failure paths (merge.py:75-77
and 83-85), `crash` an unhandled exception escaping the call, and `done`
carries the merged temp content, the dedup file (if created) with the
reported duplicate count, the date warning flag, and the final output file.
Only `done` leaves output files on disk: the temp file is removed at the end
(merge.py:114) and the failure paths return before creating any file. -/
inductive MergeResult where
  | noInputFiles : MergeResult
  | crash : PyExn → MergeResult
  | missingRequired : MergeResult
  | done : MergedData → Option (List (List String)) → Nat → Bool → MergedData →
      MergeResult
deriving DecidableEq

/-- Whether the run left an output file (the merged/date-checked output, and
possibly a dedup file). -/
def producesOutput : MergeResult → Bool
  | MergeResult.done _ _ _ _ _ => true
  | _ => false

/-- `merge_csv_files` (merge.py:71-116), applied to the list of files the
glob found: empty glob and missing required columns are reported failures;
the merged rows are each input file's data rows projected onto the sorted
union header; `check_duplicates` and `process_and_check_dates` then run on
the merged temp content. -/
def merge_csv_files (files : List InFile) : MergeResult :=
  if files.isEmpty then MergeResult.noInputFiles
  else
    match get_all_fieldnames files with
    | Except.error e => MergeResult.crash e
    | Except.ok all =>
      if "date" ∈ all ∧ "city_name" ∈ all then
        let rows := mergedRows all files
        let dup := check_duplicates rows
        match process_and_check_dates all rows with
        | Except.error e => MergeResult.crash e
        | Except.ok res =>
          MergeResult.done ⟨all, rows⟩ dup.dedupFile dup.numDuplicates res.warning
            ⟨all, res.written⟩
      else MergeResult.missingRequired

/-- The `__main__` overwrite path of merge.py (merge.py:123-133) when the
output file already exists and the user confirms: the previous output is
renamed to an `_old` name, `merge_csv_files` runs, and then `os.remove(old_file)`
executes unconditionally — it is skipped only if `merge_csv_files` escapes
with an exception. -/
structure AggMainResult where
  renamedToOld : Bool
  oldDeleted : Bool
  result : MergeResult
deriving DecidableEq

/-- Whether `merge_csv_files` escaped with an unhandled exception. -/
def isCrash : MergeResult → Bool
  | MergeResult.crash _ => true
  | _ => false

def agg_main_overwrite (files : List InFile) : AggMainResult :=
  ⟨true, !isCrash (merge_csv_files files), merge_csv_files files⟩

theorem isCrash_iff (r : MergeResult) :
    isCrash r = true ↔ ∃ e, r = MergeResult.crash e := by
  cases r <;> simp [isCrash]

/-- `os.path.splitext` (merge.py:128) for names with an extension dot, and
the `_old` name built from it (merge.py:129). -/
def oldFileName (baseName extension : String) : String :=
  baseName ++ "_old" ++ extension

theorem get_all_fieldnames_ok (files : List InFile) (h : ∀ f ∈ files, f ≠ []) :
    get_all_fieldnames files = Except.ok (unionFieldnames files) := by
  unfold get_all_fieldnames
  rw [if_pos]
  rw [List.all_eq_true]
  intro f hf
  simpa using h f hf

/-- C4: when the union of the input headers lacks `date` or `city_name`, the
aggregator reports the configuration error and returns before creating the
temp file, the dedup file or the final output (merge.py:83-85). -/
theorem C4_required_columns (files : List InFile) (hne : files ≠ [])
    (hok : ∀ f ∈ files, f ≠ [])
    (hmiss : "date" ∉ unionFieldnames files ∨ "city_name" ∉ unionFieldnames files) :
    merge_csv_files files = MergeResult.missingRequired
  ∧ producesOutput (merge_csv_files files) = false := by
  have hmerge : merge_csv_files files = MergeResult.missingRequired := by
    unfold merge_csv_files
    rw [if_neg (by simpa using hne)]
    simp only [get_all_fieldnames_ok files hok]
    rw [if_neg]
    rintro ⟨h1, h2⟩
    rcases hmiss with h | h
    · exact h h1
    · exact h h2
  exact ⟨hmerge, by rw [hmerge]; rfl⟩

/-- C4 witness: one input file with header [a]; the union lacks `date`, so the
run aborts with the reported error and produces nothing. -/
theorem C4_required_columns_witness :
    merge_csv_files [[["a"], ["x"]]] = MergeResult.missingRequired
  ∧ producesOutput (merge_csv_files [[["a"], ["x"]]]) = false :=
  C4_required_columns [[["a"], ["x"]]] (by decide) (by decide) (Or.inl (by decide))

/-- C10: the fieldname-union step assumes every discovered file has a header
row. For an empty file `reader.fieldnames` is `None` and `set.update(None)`
raises an unhandled TypeError (merge.py:38), which escapes `merge_csv_files`;
with no empty file the union is computed normally, so non-emptiness of every
input is exactly the no-crash precondition of this step. -/
theorem C10_empty_input_crash (files : List InFile) :
    (get_all_fieldnames files = Except.error PyExn.typeError ↔ ∃ f ∈ files, f = [])
  ∧ (∀ f ∈ files, f = [] → merge_csv_files files = MergeResult.crash PyExn.typeError) := by
  have hiff : get_all_fieldnames files = Except.error PyExn.typeError
      ↔ ∃ f ∈ files, f = [] := by
    unfold get_all_fieldnames
    by_cases hall : files.all (fun f => !f.isEmpty) = true
    · rw [if_pos hall]
      constructor
      · intro h
        cases h
      · rintro ⟨f, hf, rfl⟩
        have := List.all_eq_true.mp hall [] hf
        simp at this
    · rw [if_neg hall]
      constructor
      · intro _
        rcases List.all_eq_false.mp (Bool.eq_false_iff.mpr hall) with ⟨f, hf, hemp⟩
        refine ⟨f, hf, ?_⟩
        simpa using hemp
      · intro _
        rfl
  refine ⟨hiff, ?_⟩
  intro f hf hfe
  have hne : files.isEmpty = false := by
    rcases files with _ | ⟨g, gs⟩
    · cases hf
    · rfl
  unfold merge_csv_files
  rw [hne]
  simp only [Bool.false_eq_true, if_false]
  rw [hiff.mpr ⟨f, hf, hfe⟩]

/-- C10 witness: a single empty input file makes the union step raise, and the
whole aggregation escapes with the exception. -/
theorem C10_empty_input_crash_witness :
    get_all_fieldnames [[]] = Except.error PyExn.typeError
  ∧ merge_csv_files [[]] = MergeResult.crash PyExn.typeError :=
  ⟨(C10_empty_input_crash [[]]).1.mpr ⟨[], by decide, rfl⟩,
    (C10_empty_input_crash [[]]).2 [] (by decide) rfl⟩

/-- C5, counterexample. The claim says the `_old` backup is deleted only if
the merge run succeeds. But `os.remove(old_file)` (merge.py:133) runs
unconditionally after `merge_csv_files` returns, and the failure paths
(no input files, missing required columns) return normally — so with an empty
glob the merge fails yet the backup is still deleted. -/
theorem C5_old_backup_cex :
    (agg_main_overwrite []).result = MergeResult.noInputFiles
  ∧ (agg_main_overwrite []).oldDeleted = true :=
  ⟨rfl, rfl⟩

/-- C5, amended: on confirmed overwrite the previous output is renamed to the
`_old` name while the merge runs, and the `_old` file is deleted whenever
`merge_csv_files` returns normally — on success and on both reported failure
paths alike; it survives only when the run escapes with an unhandled
exception. -/
theorem C5_old_backup_lifecycle (files : List InFile) :
    (agg_main_overwrite files).renamedToOld = true
  ∧ (agg_main_overwrite files).result = merge_csv_files files
  ∧ ((agg_main_overwrite files).oldDeleted = false
      ↔ ∃ e, merge_csv_files files = MergeResult.crash e)
  ∧ oldFileName "weather_data_aggregated" ".csv" = "weather_data_aggregated_old.csv" := by
  refine ⟨rfl, rfl, ?_, by decide⟩
  show (!isCrash (merge_csv_files files)) = false ↔ _
  rw [Bool.not_eq_false']
  exact isCrash_iff (merge_csv_files files)

theorem unionFieldnames_nodup (files : List InFile) : (unionFieldnames files).Nodup := by
  unfold unionFieldnames
  exact (List.perm_insertionSort pyLe _).nodup_iff.mpr (List.nodup_dedup _)

theorem unionFieldnames_sorted (files : List InFile) :
    (unionFieldnames files).Sorted pyLe := by
  unfold unionFieldnames
  exact List.sorted_insertionSort pyLe _

theorem mem_unionFieldnames (files : List InFile) (c : String) :
    c ∈ unionFieldnames files ↔ ∃ hdr rs, (hdr :: rs) ∈ files ∧ c ∈ hdr := by
  unfold unionFieldnames
  rw [(List.perm_insertionSort pyLe _).mem_iff, List.mem_dedup, List.mem_flatten]
  constructor
  · rintro ⟨s, hs, hcs⟩
    rcases List.mem_filterMap.mp hs with ⟨f, hf, hhead⟩
    rcases f with _ | ⟨hdr, rs⟩
    · cases hhead
    · have he : hdr = s := by simpa using hhead
      subst he
      exact ⟨hdr, rs, hf, hcs⟩
  · rintro ⟨hdr, rs, hf, hc⟩
    exact ⟨hdr, List.mem_filterMap.mpr ⟨hdr :: rs, hf, rfl⟩, hc⟩

theorem mem_mergedRows (all : List String) (files : List InFile) (r : List String) :
    r ∈ mergedRows all files
      ↔ ∃ hdr rs, (hdr :: rs) ∈ files ∧ ∃ vals ∈ rs, r = projectRow hdr all vals := by
  unfold mergedRows
  rw [List.mem_flatten]
  constructor
  · rintro ⟨s, hs, hrs⟩
    rcases List.mem_map.mp hs with ⟨f, hf, rfl⟩
    rcases f with _ | ⟨hdr, rs⟩
    · simp [fileRows] at hrs
    · unfold fileRows at hrs
      rcases List.mem_map.mp hrs with ⟨vals, hv, rfl⟩
      exact ⟨hdr, rs, hf, vals, hv, rfl⟩
  · rintro ⟨hdr, rs, hf, vals, hv, rfl⟩
    refine ⟨fileRows all (hdr :: rs), List.mem_map_of_mem _ hf, ?_⟩
    unfold fileRows
    exact List.mem_map_of_mem _ hv

/-- C3, counterexample. The claim quantifies over any set of input files and
offers headers \x7ba,b\x7d and \x7bb,c\x7d as an example; but the source
requires `date` and `city_name` in the union (merge.py:83-85), so for exactly
those files the aggregator aborts and no merged output exists at all. -/
theorem C3_merge_example_cex :
    merge_csv_files [[["a", "b"], ["1", "2"]], [["b", "c"], ["3", "4"]]]
      = MergeResult.missingRequired
  ∧ producesOutput (merge_csv_files [[["a", "b"], ["1", "2"]], [["b", "c"], ["3", "4"]]])
      = false := by
  refine ⟨by decide, by decide⟩

/-- C3, amended: for input files that are non-empty and whose union header
contains `date` and `city_name`, the merge completes; its output header is
the code-point-lexicographically sorted union of the input headers, without
duplicates; every source row appears projected onto the union header; a
projected row re-reads as "NA" in every union column absent from its source
file's header and as its original value in every column of its source file's
header. -/
theorem C3_merge_union (files : List InFile)
    (hne : files ≠ []) (hwf : ∀ f ∈ files, f ≠ [])
    (hdate : "date" ∈ unionFieldnames files)
    (hcity : "city_name" ∈ unionFieldnames files) :
    (∃ dup n w, merge_csv_files files
        = MergeResult.done
            ⟨unionFieldnames files, mergedRows (unionFieldnames files) files⟩ dup n w
            ⟨unionFieldnames files, mergedRows (unionFieldnames files) files⟩)
  ∧ (unionFieldnames files).Sorted pyLe
  ∧ (unionFieldnames files).Nodup
  ∧ (∀ c, c ∈ unionFieldnames files ↔ ∃ hdr rs, (hdr :: rs) ∈ files ∧ c ∈ hdr)
  ∧ (∀ hdr rs vals, (hdr :: rs) ∈ files → vals ∈ rs →
      projectRow hdr (unionFieldnames files) vals
        ∈ mergedRows (unionFieldnames files) files)
  ∧ (∀ hdr vals c, c ∈ unionFieldnames files → c ∉ hdr →
      rereadCell (unionFieldnames files)
        (projectRow hdr (unionFieldnames files) vals) c = some "NA")
  ∧ (∀ hdr vals c, c ∈ hdr → c ∈ unionFieldnames files → vals.length = hdr.length →
      rereadCell (unionFieldnames files)
        (projectRow hdr (unionFieldnames files) vals) c = rereadCell hdr vals c) := by
  have hnd := unionFieldnames_nodup files
  refine ⟨?_, unionFieldnames_sorted files, hnd, mem_unionFieldnames files, ?_, ?_, ?_⟩
  · have hall : ∀ r ∈ mergedRows (unionFieldnames files) files,
        (((unionFieldnames files).zip r).lookup "date").isSome = true := by
      intro r hr
      rcases (mem_mergedRows _ files r).mp hr with ⟨hdr, rs, _, vals, _, rfl⟩
      unfold projectRow
      rw [lookup_zip_map _ _ hnd hdate]
      rfl
    have hproc : process_and_check_dates (unionFieldnames files)
        (mergedRows (unionFieldnames files) files)
        = Except.ok ⟨mergedRows (unionFieldnames files) files,
            (mergedRows (unionFieldnames files) files).any
              (rowDateBad (unionFieldnames files))⟩ := by
      unfold process_and_check_dates
      rw [process_and_check_dates_ok _ _ _ hall]
      simp
    have h1 : files.isEmpty = false := by
      simpa using hne
    unfold merge_csv_files
    rw [h1]
    simp only [Bool.false_eq_true, if_false]
    simp only [get_all_fieldnames_ok files hwf]
    rw [if_pos ⟨hdate, hcity⟩]
    simp only [hproc]
    exact ⟨_, _, _, rfl⟩
  · intro hdr rs vals hf hv
    exact (mem_mergedRows _ files _).mpr ⟨hdr, rs, hf, vals, hv, rfl⟩
  · intro hdr vals c hcu hch
    unfold rereadCell projectRow
    rw [lookup_zip_map _ _ hnd hcu]
    simp [lookup_zip_not_mem _ hch]
  · intro hdr vals c hch hcu hlen
    unfold rereadCell projectRow
    rw [lookup_zip_map _ _ hnd hcu]
    rcases lookup_zip_isSome hdr hch vals hlen with ⟨v, hv⟩
    rw [hv]
    simp [hv]

/-- C3 witness at the concrete files F1 (header city_name, date, a) and F2
(header b, city_name, date): the sorted union header holds, F1's row is in
the merged output, F2's row re-reads "NA" in column a, and F1's row keeps its
original value in column a. -/
theorem C3_merge_union_witness :
    (unionFieldnames [[["city_name", "date", "a"], ["sz", "2024-07-01", "1"]],
        [["b", "city_name", "date"], ["2", "sh", "2024-07-02"]]]).Sorted pyLe
  ∧ projectRow ["city_name", "date", "a"]
        (unionFieldnames [[["city_name", "date", "a"], ["sz", "2024-07-01", "1"]],
          [["b", "city_name", "date"], ["2", "sh", "2024-07-02"]]])
        ["sz", "2024-07-01", "1"]
      ∈ mergedRows
          (unionFieldnames [[["city_name", "date", "a"], ["sz", "2024-07-01", "1"]],
            [["b", "city_name", "date"], ["2", "sh", "2024-07-02"]]])
          [[["city_name", "date", "a"], ["sz", "2024-07-01", "1"]],
            [["b", "city_name", "date"], ["2", "sh", "2024-07-02"]]]
  ∧ rereadCell
        (unionFieldnames [[["city_name", "date", "a"], ["sz", "2024-07-01", "1"]],
          [["b", "city_name", "date"], ["2", "sh", "2024-07-02"]]])
        (projectRow ["b", "city_name", "date"]
          (unionFieldnames [[["city_name", "date", "a"], ["sz", "2024-07-01", "1"]],
            [["b", "city_name", "date"], ["2", "sh", "2024-07-02"]]])
          ["2", "sh", "2024-07-02"]) "a"
      = some "NA"
  ∧ rereadCell
        (unionFieldnames [[["city_name", "date", "a"], ["sz", "2024-07-01", "1"]],
          [["b", "city_name", "date"], ["2", "sh", "2024-07-02"]]])
        (projectRow ["city_name", "date", "a"]
          (unionFieldnames [[["city_name", "date", "a"], ["sz", "2024-07-01", "1"]],
            [["b", "city_name", "date"], ["2", "sh", "2024-07-02"]]])
          ["sz", "2024-07-01", "1"]) "a"
      = rereadCell ["city_name", "date", "a"] ["sz", "2024-07-01", "1"] "a" := by
  have h := C3_merge_union
    [[["city_name", "date", "a"], ["sz", "2024-07-01", "1"]],
      [["b", "city_name", "date"], ["2", "sh", "2024-07-02"]]]
    (by decide) (by decide) (by decide) (by decide)
  refine ⟨h.2.1, ?_, ?_, ?_⟩
  · exact h.2.2.2.2.1 ["city_name", "date", "a"] [["sz", "2024-07-01", "1"]]
      ["sz", "2024-07-01", "1"] (by decide) (by decide)
  · exact h.2.2.2.2.2.1 ["b", "city_name", "date"] ["2", "sh", "2024-07-02"] "a"
      (by decide) (by decide)
  · exact h.2.2.2.2.2.2 ["city_name", "date", "a"] ["sz", "2024-07-01", "1"] "a"
      (by decide) (by decide) (by decide)
